import Mathlib

/-!
Shallow embedding of the MemoPad note-collection model from `memopad.py`.

Python exceptions are modelled with `Except`; every operation returns the
resulting pad state together with an `Except` value, so that the state after a
raised exception (Python leaves the object as it was at the raise point) is
still observable.  Python `int` is modelled as `Int`, Python lists as `List`,
and the parsed JSON store as the inductive `JValue` (a `jobj` stands for a
parsed Python dict, whose keys are unique).
-/

namespace MemoPadModel

/-- Python exceptions that the modelled code can raise. -/
inductive PyErr where
  | indexError
  | typeError
  | valueError
deriving DecidableEq, Repr

/-- A single note entry (dataclass `Note` in `memopad.py`). -/
structure Note where
  text : String
  favorite : Bool := false
  pinned : Bool := false
  indent : Int := 0
deriving DecidableEq, Repr

/-- MAX_INDENT constant from `memopad.py`. -/
def MAX_INDENT : Int := 8

/-- State of the `MemoPad` class: the fields touched by the model layer
(`path` and `scroll` are presentation-only and omitted). -/
structure MemoPad where
  notes : List Note
  zoom : Int := 0
  selected : Int := 0
  dirty : Bool := false
deriving DecidableEq, Repr

/-! ### Python list primitives (negative-index semantics) -/

/-- Python read `xs[i]`: negative indices count from the end; out of range
raises `IndexError`. -/
def pyGet (xs : List Note) (i : Int) : Except PyErr Note :=
  let j : Int := if i < 0 then i + xs.length else i
  if 0 ≤ j then
    match xs.get? j.toNat with
    | some x => .ok x
    | none => .error .indexError
  else .error .indexError

/-- Python write `xs[i] = v` (the list after the assignment). -/
def pySet (xs : List Note) (i : Int) (v : Note) : Except PyErr (List Note) :=
  let j : Int := if i < 0 then i + xs.length else i
  if 0 ≤ j ∧ j < xs.length then .ok (xs.set j.toNat v) else .error .indexError

/-- Python `xs.pop(i)`: the removed element and the remaining list. -/
def pyPop (xs : List Note) (i : Int) : Except PyErr (Note × List Note) :=
  let j : Int := if i < 0 then i + xs.length else i
  if 0 ≤ j then
    match xs.get? j.toNat with
    | some x => .ok (x, xs.eraseIdx j.toNat)
    | none => .error .indexError
  else .error .indexError

/-- Python `xs.insert(i, v)`: position is clamped, never raises. -/
def pyInsert (xs : List Note) (i : Int) (v : Note) : List Note :=
  let j : Int := if i < 0 then max 0 (i + xs.length) else min i xs.length
  xs.insertIdx j.toNat v

/-! ### Note operations -/

/-- `MemoPad.toggle_favorite(index)`:
`self.notes[index].favorite = not self.notes[index].favorite; self.dirty = True`. -/
def toggle_favorite (pad : MemoPad) (index : Int) : MemoPad × Except PyErr Unit :=
  match pyGet pad.notes index with
  | .error e => (pad, .error e)
  | .ok note =>
    match pySet pad.notes index { note with favorite := !note.favorite } with
    | .error e => (pad, .error e)
    | .ok ns => ({ pad with notes := ns, dirty := true }, .ok ())

/-- Insert position used by `toggle_pin`:
`max([i for i, n in enumerate(self.notes) if n.pinned] + [-1]) + 1`. -/
def last_pin_pos (notes : List Note) : Int :=
  (((notes.enum.filter (fun p => p.2.pinned)).map (fun p => (p.1 : Int))).foldl max (-1)) + 1

/-- `MemoPad.toggle_pin(index)`: pop the note, flip its flag, and reinsert it
right after the last pinned note of the remaining list (both branches of the
source `if` perform the same computation, kept here as in the source). -/
def toggle_pin (pad : MemoPad) (index : Int) : MemoPad × Except PyErr Unit :=
  match pyPop pad.notes index with
  | .error e => (pad, .error e)
  | .ok (n, rest) =>
    let note : Note := { n with pinned := !n.pinned }
    if note.pinned then
      let pos := last_pin_pos rest
      ({ pad with notes := pyInsert rest pos note, selected := pos, dirty := true }, .ok ())
    else
      let pos := last_pin_pos rest
      ({ pad with notes := pyInsert rest pos note, selected := pos, dirty := true }, .ok ())

/-- `MemoPad.move_up(index)`: swap with the previous note when both are in the
same pinned group; returns the note's resulting index. -/
def move_up (pad : MemoPad) (index : Int) : MemoPad × Except PyErr Int :=
  if index > 0 then
    match pyGet pad.notes index with
    | .error e => (pad, .error e)
    | .ok a =>
      match pyGet pad.notes (index - 1) with
      | .error e => (pad, .error e)
      | .ok b =>
        if a.pinned == b.pinned then
          match pySet pad.notes (index - 1) a with
          | .error e => (pad, .error e)
          | .ok ns1 =>
            match pySet ns1 index b with
            | .error e => ({ pad with notes := ns1 }, .error e)
            | .ok ns2 => ({ pad with notes := ns2, dirty := true }, .ok (index - 1))
        else (pad, .ok index)
  else (pad, .ok index)

/-- `MemoPad.move_down(index)`: swap with the next note when both are in the
same pinned group; returns the note's resulting index. -/
def move_down (pad : MemoPad) (index : Int) : MemoPad × Except PyErr Int :=
  if index < (pad.notes.length : Int) - 1 then
    match pyGet pad.notes index with
    | .error e => (pad, .error e)
    | .ok a =>
      match pyGet pad.notes (index + 1) with
      | .error e => (pad, .error e)
      | .ok b =>
        if a.pinned == b.pinned then
          match pySet pad.notes (index + 1) a with
          | .error e => (pad, .error e)
          | .ok ns1 =>
            match pySet ns1 index b with
            | .error e => ({ pad with notes := ns1 }, .error e)
            | .ok ns2 => ({ pad with notes := ns2, dirty := true }, .ok (index + 1))
        else (pad, .ok index)
  else (pad, .ok index)

/-- `MemoPad.move_left(index)`: `note.indent = max(0, note.indent - 1)`. -/
def move_left (pad : MemoPad) (index : Int) : MemoPad × Except PyErr Unit :=
  match pyGet pad.notes index with
  | .error e => (pad, .error e)
  | .ok note =>
    match pySet pad.notes index { note with indent := max 0 (note.indent - 1) } with
    | .error e => (pad, .error e)
    | .ok ns => ({ pad with notes := ns, dirty := true }, .ok ())

/-- `MemoPad.move_right(index)`: `note.indent = min(MAX_INDENT, note.indent + 1)`. -/
def move_right (pad : MemoPad) (index : Int) : MemoPad × Except PyErr Unit :=
  match pyGet pad.notes index with
  | .error e => (pad, .error e)
  | .ok note =>
    match pySet pad.notes index { note with indent := min MAX_INDENT (note.indent + 1) } with
    | .error e => (pad, .error e)
    | .ok ns => ({ pad with notes := ns, dirty := true }, .ok ())

/-- `MemoPad.zoom_in()`: `self.zoom = min(self.zoom + 1, 8)`. -/
def zoom_in (pad : MemoPad) : MemoPad :=
  { pad with zoom := min (pad.zoom + 1) 8, dirty := true }

/-- `MemoPad.zoom_out()`: `self.zoom = max(self.zoom - 1, 0)`. -/
def zoom_out (pad : MemoPad) : MemoPad :=
  { pad with zoom := max (pad.zoom - 1) 0, dirty := true }

/-! ### Parsed JSON values and the Python coercions `load` applies to them -/

/-- A value as returned by `json.load` (a `jobj` is a parsed Python dict, so
its keys are unique; floats do not occur in the stores the claims concern and
are not modelled). -/
inductive JValue where
  | jnull
  | jbool (b : Bool)
  | jint (n : Int)
  | jstr (s : String)
  | jlist (xs : List JValue)
  | jobj (fields : List (String × JValue))
deriving Repr

/-- Python `d.get(key, default)` on a parsed dict. -/
def jget (fields : List (String × JValue)) (key : String) (dflt : JValue) : JValue :=
  match fields.find? (fun p => p.1 == key) with
  | some p => p.2
  | none => dflt

/-- Python truthiness `bool(v)`. -/
def pyBool : JValue → Bool
  | .jnull => false
  | .jbool b => b
  | .jint n => n != 0
  | .jstr s => s != ""
  | .jlist xs => !xs.isEmpty
  | .jobj fs => !fs.isEmpty

mutual

/-- Python `repr(v)` for parsed-JSON values (escaping of quotes, backslashes
and non-printable characters inside strings is elided; no claim evaluates it
on such strings). -/
def pyRepr : JValue → String
  | .jnull => "None"
  | .jbool b => if b then "True" else "False"
  | .jint n => toString n
  | .jstr s => "'" ++ s ++ "'"
  | .jlist xs => "[" ++ pyReprList xs ++ "]"
  | .jobj fs => "\x7b" ++ pyReprObj fs ++ "\x7d"

/-- Comma-separated reprs of the elements of a Python list. -/
def pyReprList : List JValue → String
  | [] => ""
  | [x] => pyRepr x
  | x :: y :: xs => pyRepr x ++ ", " ++ pyReprList (y :: xs)

/-- Comma-separated `key: value` reprs of the entries of a Python dict. -/
def pyReprObj : List (String × JValue) → String
  | [] => ""
  | [(k, v)] => "'" ++ k ++ "': " ++ pyRepr v
  | (k, v) :: y :: xs => "'" ++ k ++ "': " ++ pyRepr v ++ ", " ++ pyReprObj (y :: xs)

end

/-- Python `str(v)`: the string itself for a string, `repr` otherwise. -/
def pyStr : JValue → String
  | .jstr s => s
  | v => pyRepr v

/-- Nat value of a list of decimal digits. -/
def digitsToNat (cs : List Char) : Nat :=
  cs.foldl (fun a c => a * 10 + (c.toNat - 48)) 0

/-- ASCII whitespace stripped by Python `int()` around a numeric string. -/
def isSpaceChar (c : Char) : Bool :=
  c = ' ' || c = '\t' || c = '\n' || c = '\r'

/-- Python `int(s)` on a string: optional surrounding whitespace, optional
sign, decimal digits; anything else raises `ValueError` (underscore
separators, non-ASCII digits and non-ASCII whitespace, which CPython also
accepts, are elided). -/
def parseIntStr (s : String) : Except PyErr Int :=
  let cs := ((s.data.dropWhile isSpaceChar).reverse.dropWhile isSpaceChar).reverse
  let signed : Int × List Char :=
    match cs with
    | '-' :: rest => (-1, rest)
    | '+' :: rest => (1, rest)
    | _ => (1, cs)
  if signed.2 ≠ [] ∧ signed.2.all (fun c => c.isDigit) then
    .ok (signed.1 * digitsToNat signed.2)
  else .error .valueError

/-- Python `int(v)`: ints pass through, bools become 0/1, strings are parsed
(`ValueError` on failure), anything else raises `TypeError`. -/
def pyInt : JValue → Except PyErr Int
  | .jbool b => .ok (if b then 1 else 0)
  | .jint n => .ok n
  | .jstr s => parseIntStr s
  | _ => .error .typeError

/-- Python iteration `for x in v`: lists yield their elements, strings their
one-character substrings, dicts their keys; other values raise `TypeError`. -/
def pyIter : JValue → Except PyErr (List JValue)
  | .jlist xs => .ok xs
  | .jstr s => .ok (s.data.map (fun c => .jstr (String.mk [c])))
  | .jobj fs => .ok (fs.map (fun p => .jstr p.1))
  | _ => .error .typeError

/-! ### Persistence: `load` and `save` -/

/-- Outcome of opening and JSON-parsing the backing store in `load`. -/
inductive Store where
  | missing
  | corrupt
  | parsed (v : JValue)

/-- Sample notes seeded by `load` when the store file is missing. -/
def seed_notes : List Note :=
  [{ text := "Welcome to MemoPad" },
   { text := "Pinned: Read me first", pinned := true },
   { text := "★ Sample favorite item", favorite := true, indent := 1 }]

/-- Body of `load`'s per-item work: non-dict entries are skipped (`none`);
for dict entries the four fields are coerced as the source does, with `indent`
clamped into `[0, MAX_INDENT]`.  `int()` can raise. -/
def load_note (item : JValue) : Except PyErr (Option Note) :=
  match item with
  | .jobj fs =>
    let text := pyStr (jget fs "text" (.jstr ""))
    let pinned := pyBool (jget fs "pinned" (.jbool false))
    let favorite := pyBool (jget fs "favorite" (.jbool false))
    match pyInt (jget fs "indent" (.jint 0)) with
    | .error e => .error e
    | .ok n =>
      .ok (some { text := text, favorite := favorite, pinned := pinned,
                  indent := max 0 (min MAX_INDENT n) })
  | _ => .ok none

/-- The `for item in items` loop of `load`: accumulates decoded notes and, on
a raised exception, reports the notes appended so far. -/
def load_loop (items : List JValue) (acc : List Note) : List Note × Except PyErr Unit :=
  match items with
  | [] => (acc, .ok ())
  | item :: rest =>
    match load_note item with
    | .error e => (acc, .error e)
    | .ok none => load_loop rest acc
    | .ok (some n) => load_loop rest (acc ++ [n])

/-- `MemoPad.load(path)`. A missing file seeds sample notes (and saves them);
a `JSONDecodeError` resets to an empty pad; otherwise the parsed value is
decoded.  The pad state carried alongside an `.error` result is the state at
the point the exception was raised. -/
def load (pad : MemoPad) (store : Store) : MemoPad × Except PyErr Unit :=
  match store with
  | .missing =>
    ({ pad with notes := seed_notes, zoom := 0, dirty := false }, .ok ())
  | .corrupt =>
    ({ pad with notes := [], zoom := 0, dirty := false }, .ok ())
  | .parsed data =>
    let items := match data with
      | .jobj fs => jget fs "notes" (.jlist [])
      | _ => .jlist []
    match pyIter items with
    | .error e => ({ pad with notes := [] }, .error e)
    | .ok xs =>
      match load_loop xs [] with
      | (ns, .error e) => ({ pad with notes := ns }, .error e)
      | (ns, .ok ()) =>
        let zr := match data with
          | .jobj fs => pyInt (jget fs "zoom" (.jint 0))
          | _ => .ok 0
        match zr with
        | .error e => ({ pad with notes := ns }, .error e)
        | .ok z => ({ pad with notes := ns, zoom := z, dirty := false }, .ok ())

/-- `Note.to_dict()`. -/
def to_dict (n : Note) : JValue :=
  .jobj [("text", .jstr n.text), ("pinned", .jbool n.pinned),
         ("favorite", .jbool n.favorite), ("indent", .jint n.indent)]

/-- `MemoPad.save(path)`: the state after a successful save together with the
JSON value written to the store. -/
def save (pad : MemoPad) : MemoPad × JValue :=
  ({ pad with dirty := false },
   .jobj [("notes", .jlist (pad.notes.map to_dict)), ("zoom", .jint pad.zoom)])

/-! ### Spec-level predicates -/

/-- All pinned notes form a contiguous block at the front of the list. -/
def pinned_front (notes : List Note) : Bool :=
  (notes.dropWhile (fun n => n.pinned)).all (fun n => !n.pinned)

/-- Position immediately after the last pinned note of `l`, and `0` when no
note is pinned: the reinsertion point of `toggle_pin` as the spec words it. -/
def spec_insert_pos (l : List Note) : Nat :=
  l.length - (l.reverse.takeWhile (fun n => !n.pinned)).length

/-! ### Lemmas about the Python list primitives -/

lemma pyGet_nat (xs : List Note) (i : Nat) (h : i < xs.length) :
    pyGet xs i = .ok (xs.get ⟨i, h⟩) := by
  have h1 : ¬((i : Int) < 0) := by omega
  simp [pyGet, h1, List.getElem?_eq_getElem h]

lemma pySet_nat (xs : List Note) (i : Nat) (h : i < xs.length) (v : Note) :
    pySet xs i v = .ok (xs.set i v) := by
  have h1 : ¬((i : Int) < 0) := by omega
  have h2 : (0 : Int) ≤ (i : Int) ∧ (i : Int) < xs.length := ⟨by omega, by omega⟩
  simp [pySet, h1, h2]

lemma pyPop_nat (xs : List Note) (i : Nat) (h : i < xs.length) :
    pyPop xs i = .ok (xs.get ⟨i, h⟩, xs.eraseIdx i) := by
  have h1 : ¬((i : Int) < 0) := by omega
  simp [pyPop, h1, List.getElem?_eq_getElem h]

lemma set_get_self {α : Type} (l : List α) (i : Nat) (h : i < l.length) :
    l.set i (l.get ⟨i, h⟩) = l := by
  induction l generalizing i with
  | nil => simp at h
  | cons x t ih =>
    cases i with
    | zero => simp
    | succ j => simp only [List.set, List.get]; rw [ih j (by simpa using h)]

lemma insertIdx_eq_take_cons_drop (l : List Note) (i : Nat) (h : i ≤ l.length) (x : Note) :
    l.insertIdx i x = l.take i ++ x :: l.drop i := by
  induction l generalizing i with
  | nil =>
    have hi : i = 0 := by simpa using h
    subst hi
    simp
  | cons y t ih =>
    cases i with
    | zero => simp
    | succ j =>
      simp only [List.insertIdx_succ_cons, List.take, List.drop, List.cons_append]
      rw [ih j (by simpa using h)]

lemma pyInsert_eq_insertIdx (xs : List Note) (p : Int) (hp0 : 0 ≤ p)
    (hpl : p ≤ xs.length) (v : Note) :
    pyInsert xs p v = xs.insertIdx p.toNat v := by
  simp only [pyInsert]
  have : ¬ p < 0 := by omega
  simp [this, min_eq_left hpl]

/-! ### Lemmas about `last_pin_pos` -/

lemma le_foldl_max (xs : List Int) (a : Int) : a ≤ xs.foldl max a := by
  induction xs generalizing a with
  | nil => simp
  | cons x t ih => exact le_trans (le_max_left a x) (ih (max a x))

lemma foldl_max_le {xs : List Int} {a c : Int} (ha : a ≤ c)
    (h : ∀ y ∈ xs, y ≤ c) : xs.foldl max a ≤ c := by
  induction xs generalizing a with
  | nil => simpa using ha
  | cons x t ih =>
    simp only [List.foldl_cons]
    exact ih (max_le ha (h x (by simp))) (fun y hy => h y (by simp [hy]))

lemma last_pin_pos_nonneg (l : List Note) : 0 ≤ last_pin_pos l := by
  have := le_foldl_max ((l.enum.filter (fun p => p.2.pinned)).map (fun p => (p.1 : Int))) (-1)
  unfold last_pin_pos
  omega

lemma last_pin_pos_le_length (l : List Note) : last_pin_pos l ≤ l.length := by
  have h : ((l.enum.filter (fun p => p.2.pinned)).map (fun p => (p.1 : Int))).foldl max (-1)
      ≤ (l.length : Int) - 1 := by
    refine foldl_max_le (by omega) ?_
    intro y hy
    simp only [List.mem_map, List.mem_filter] at hy
    obtain ⟨p, ⟨hp, -⟩, rfl⟩ := hy
    obtain ⟨hlen, -⟩ := List.getElem?_eq_some.mp (List.mem_enum_iff_getElem?.mp hp)
    omega
  unfold last_pin_pos
  omega

lemma last_pin_pos_append_pinned (l : List Note) (x : Note) (hx : x.pinned = true) :
    last_pin_pos (l ++ [x]) = (l.length : Int) + 1 := by
  have hb : ((l.enum.filter (fun p => p.2.pinned)).map (fun p => (p.1 : Int))).foldl max (-1)
      ≤ (l.length : Int) - 1 := by
    have := last_pin_pos_le_length l
    unfold last_pin_pos at this
    omega
  unfold last_pin_pos
  rw [List.enum_append]
  simp only [List.enumFrom_cons, List.enumFrom_nil, List.filter_append, List.filter_cons,
    List.filter_nil, hx, List.map_append, List.foldl_append]
  simp only [if_pos trivial, List.map_cons, List.map_nil, List.foldl_cons, List.foldl_nil]
  omega

lemma last_pin_pos_append_unpinned (l : List Note) (x : Note) (hx : x.pinned = false) :
    last_pin_pos (l ++ [x]) = last_pin_pos l := by
  unfold last_pin_pos
  rw [List.enum_append]
  simp [List.enumFrom_cons, List.filter_cons, hx]

lemma takeWhile_eq_nil_of_all_not {p : Note → Bool} {l : List Note}
    (h : ∀ y ∈ l, p y = false) : l.takeWhile p = [] := by
  cases l with
  | nil => rfl
  | cons x t => simp [List.takeWhile_cons, h x (by simp)]

lemma takeWhile_append_of_all {p : Note → Bool} {xs : List Note} (ys : List Note)
    (h : ∀ x ∈ xs, p x = true) : (xs ++ ys).takeWhile p = xs ++ ys.takeWhile p := by
  induction xs with
  | nil => simp
  | cons x t ih =>
    simp only [List.cons_append, List.takeWhile_cons, h x (by simp), if_pos]
    rw [ih (fun y hy => h y (by simp [hy]))]

lemma dropWhile_append_of_all {p : Note → Bool} {xs : List Note} (ys : List Note)
    (h : ∀ x ∈ xs, p x = true) : (xs ++ ys).dropWhile p = ys.dropWhile p := by
  induction xs with
  | nil => simp
  | cons x t ih =>
    simp only [List.cons_append, List.dropWhile_cons, h x (by simp), if_pos]
    exact ih (fun y hy => h y (by simp [hy]))

lemma dropWhile_eq_self_of_all_not {p : Note → Bool} {l : List Note}
    (h : ∀ y ∈ l, p y = false) : l.dropWhile p = l := by
  cases l with
  | nil => rfl
  | cons x t => simp [List.dropWhile_cons, h x (by simp)]

/-- `last_pin_pos` computes the position right after the last pinned note. -/
lemma last_pin_pos_eq_spec (l : List Note) :
    last_pin_pos l = ((spec_insert_pos l : Nat) : Int) := by
  induction l using List.reverseRecOn with
  | nil => rfl
  | append_singleton t x ih =>
    have htw : (t.reverse.takeWhile (fun n => !n.pinned)).length ≤ t.length := by
      have hsub : (t.reverse.takeWhile (fun n => !n.pinned)).Sublist t.reverse :=
        List.takeWhile_sublist _
      simpa using hsub.length_le
    cases hx : x.pinned with
    | true =>
      rw [last_pin_pos_append_pinned t x hx]
      simp [spec_insert_pos, List.takeWhile_cons, hx]
    | false =>
      rw [last_pin_pos_append_unpinned t x hx, ih]
      simp only [spec_insert_pos, List.reverse_append, List.reverse_cons, List.reverse_nil,
        List.nil_append, List.singleton_append, List.takeWhile_cons, hx]
      simp only [Bool.not_false, if_pos, List.length_cons, List.length_append, List.length_nil]
      push_cast
      omega

/-- On a list split into a pinned block followed by an unpinned block, the
reinsertion position is the length of the pinned block. -/
lemma spec_insert_pos_grouped {A B : List Note} (hA : ∀ n ∈ A, n.pinned = true)
    (hB : ∀ n ∈ B, n.pinned = false) : spec_insert_pos (A ++ B) = A.length := by
  unfold spec_insert_pos
  rw [List.reverse_append]
  rw [takeWhile_append_of_all A.reverse (fun x hx => by
    simp only [List.mem_reverse] at hx
    simp [hB x hx])]
  rw [takeWhile_eq_nil_of_all_not (fun y hy => by
    simp only [List.mem_reverse] at hy
    simp [hA y hy])]
  simp

/-! ### Lemmas about `pinned_front` -/

lemma pinned_front_of_grouped {A B : List Note} (hA : ∀ n ∈ A, n.pinned = true)
    (hB : ∀ n ∈ B, n.pinned = false) : pinned_front (A ++ B) = true := by
  unfold pinned_front
  rw [dropWhile_append_of_all B hA, dropWhile_eq_self_of_all_not hB]
  exact List.all_eq_true.mpr (fun n hn => by simp [hB n hn])

lemma pinned_front_grouped {l : List Note} (h : pinned_front l = true) :
    (∀ n ∈ l.takeWhile (fun n => n.pinned), n.pinned = true) ∧
    (∀ n ∈ l.dropWhile (fun n => n.pinned), n.pinned = false) ∧
    l.takeWhile (fun n => n.pinned) ++ l.dropWhile (fun n => n.pinned) = l := by
  refine ⟨fun n hn => List.mem_takeWhile_imp hn, fun n hn => ?_,
    List.takeWhile_append_dropWhile _ _⟩
  have := List.all_eq_true.mp h n hn
  simpa using this

lemma pairwise_of_pinned_front {l : List Note} (h : pinned_front l = true) :
    List.Pairwise (fun a b => b.pinned = true → a.pinned = true) l := by
  obtain ⟨hA, hB, hl⟩ := pinned_front_grouped h
  rw [← hl]
  refine List.pairwise_append.mpr ⟨?_, ?_, ?_⟩
  · exact List.pairwise_of_forall_mem_list (fun a ha b hb => fun _ => hA a ha)
  · exact List.pairwise_of_forall_mem_list
      (fun a ha b hb => fun hbp => absurd hbp (by simp [hB b hb]))
  · intro a ha b hb _
    exact hA a ha

lemma pinned_front_of_pairwise {l : List Note}
    (h : List.Pairwise (fun a b => b.pinned = true → a.pinned = true) l) :
    pinned_front l = true := by
  induction l with
  | nil => rfl
  | cons x t ih =>
    obtain ⟨hx, ht⟩ := List.pairwise_cons.mp h
    cases hp : x.pinned with
    | true => simpa [pinned_front, List.dropWhile_cons, hp] using ih ht
    | false =>
      have hall : ∀ y ∈ t, y.pinned = false := by
        intro y hy
        by_contra hyp
        have : y.pinned = true := by revert hyp; cases y.pinned <;> simp
        exact absurd (hx y hy this) (by simp [hp])
      have hay : ∀ y ∈ x :: t, (!y.pinned) = true := by
        intro y hy
        rcases List.mem_cons.mp hy with rfl | hy
        · simp [hp]
        · simp [hall y hy]
      unfold pinned_front
      rw [List.dropWhile_cons, if_neg (by simp [hp])]
      exact List.all_eq_true.mpr hay

lemma pinned_front_eraseIdx {l : List Note} (h : pinned_front l = true) (i : Nat) :
    pinned_front (l.eraseIdx i) = true :=
  pinned_front_of_pairwise
    (List.Pairwise.sublist (List.eraseIdx_sublist l i) (pairwise_of_pinned_front h))

lemma all_not_pinned_map (t : List Note) :
    (t.all fun n => !n.pinned) = ((t.map (fun n => n.pinned)).all fun b => !b) := by
  induction t with
  | nil => rfl
  | cons y u ihu => simp only [List.all_cons, List.map_cons, ihu]

lemma pinned_front_eq_bool (l : List Note) :
    pinned_front l
      = (((l.map (fun n => n.pinned)).dropWhile id).all (fun b => !b)) := by
  induction l with
  | nil => rfl
  | cons x t ih =>
    cases hp : x.pinned with
    | true => simpa [pinned_front, List.dropWhile_cons, hp] using ih
    | false =>
      unfold pinned_front
      rw [List.dropWhile_cons, if_neg (by simp [hp]), List.map_cons, List.dropWhile_cons,
        if_neg (by simp [hp])]
      simp only [List.all_cons, all_not_pinned_map]

lemma pinned_front_congr {l₁ l₂ : List Note}
    (h : l₁.map (fun n => n.pinned) = l₂.map (fun n => n.pinned)) :
    pinned_front l₁ = pinned_front l₂ := by
  rw [pinned_front_eq_bool, pinned_front_eq_bool, h]

/-! ### Characterizations of the operations at a valid index -/

lemma insertIdx_append_self (A B : List Note) (x : Note) :
    (A ++ B).insertIdx A.length x = A ++ x :: B := by
  rw [insertIdx_eq_take_cons_drop _ _ (by simp) x]
  congr 1
  · exact List.take_left A B
  · congr 1
    exact List.drop_left A B

lemma toggle_favorite_nat (pad : MemoPad) (i : Nat) (h : i < pad.notes.length) :
    toggle_favorite pad i =
      ({ pad with
          notes := pad.notes.set i
            { pad.notes.get ⟨i, h⟩ with favorite := !(pad.notes.get ⟨i, h⟩).favorite },
          dirty := true }, .ok ()) := by
  unfold toggle_favorite
  rw [pyGet_nat _ _ h]
  simp [pySet_nat _ _ h]

lemma move_left_nat (pad : MemoPad) (i : Nat) (h : i < pad.notes.length) :
    move_left pad i =
      ({ pad with
          notes := pad.notes.set i
            { pad.notes.get ⟨i, h⟩ with indent := max 0 ((pad.notes.get ⟨i, h⟩).indent - 1) },
          dirty := true }, .ok ()) := by
  unfold move_left
  rw [pyGet_nat _ _ h]
  simp [pySet_nat _ _ h]

lemma move_right_nat (pad : MemoPad) (i : Nat) (h : i < pad.notes.length) :
    move_right pad i =
      ({ pad with
          notes := pad.notes.set i
            { pad.notes.get ⟨i, h⟩ with
                indent := min MAX_INDENT ((pad.notes.get ⟨i, h⟩).indent + 1) },
          dirty := true }, .ok ()) := by
  unfold move_right
  rw [pyGet_nat _ _ h]
  simp [pySet_nat _ _ h]

lemma toggle_pin_nat (pad : MemoPad) (i : Nat) (h : i < pad.notes.length) :
    toggle_pin pad i =
      ({ pad with
          notes := (pad.notes.eraseIdx i).insertIdx (spec_insert_pos (pad.notes.eraseIdx i))
            { pad.notes.get ⟨i, h⟩ with pinned := !(pad.notes.get ⟨i, h⟩).pinned },
          selected := ((spec_insert_pos (pad.notes.eraseIdx i) : Nat) : Int),
          dirty := true }, .ok ()) := by
  have hs := last_pin_pos_eq_spec (pad.notes.eraseIdx i)
  have h0 := last_pin_pos_nonneg (pad.notes.eraseIdx i)
  have hl := last_pin_pos_le_length (pad.notes.eraseIdx i)
  unfold toggle_pin
  rw [pyPop_nat _ _ h]
  simp only [pyInsert_eq_insertIdx _ _ h0 hl]
  simp only [hs, Int.toNat_natCast]
  split <;> rfl

lemma move_up_noop (pad : MemoPad) (index : Int) (h : ¬ index > 0) :
    move_up pad index = (pad, .ok index) := by
  unfold move_up
  rw [if_neg h]

lemma move_up_diff (pad : MemoPad) (i : Nat) (h0 : 0 < i) (h : i < pad.notes.length)
    (h1 : i - 1 < pad.notes.length)
    (hne : (pad.notes.get ⟨i, h⟩).pinned ≠ (pad.notes.get ⟨i - 1, h1⟩).pinned) :
    move_up pad i = (pad, .ok i) := by
  unfold move_up
  rw [if_pos (by omega)]
  have hcast : ((i : Int)) - 1 = ((i - 1 : Nat) : Int) := by omega
  rw [pyGet_nat _ _ h, hcast, pyGet_nat _ _ h1]
  simp only [beq_eq_false_iff_ne.mpr hne, Bool.false_eq_true, if_neg]
  simp

lemma move_up_swap (pad : MemoPad) (i : Nat) (h0 : 0 < i) (h : i < pad.notes.length)
    (h1 : i - 1 < pad.notes.length)
    (heq : (pad.notes.get ⟨i, h⟩).pinned = (pad.notes.get ⟨i - 1, h1⟩).pinned) :
    move_up pad i =
      ({ pad with
          notes := (pad.notes.set (i - 1) (pad.notes.get ⟨i, h⟩)).set i
            (pad.notes.get ⟨i - 1, h1⟩),
          dirty := true }, .ok ((i : Int) - 1)) := by
  unfold move_up
  rw [if_pos (by omega)]
  have hcast : ((i : Int)) - 1 = ((i - 1 : Nat) : Int) := by omega
  rw [pyGet_nat _ _ h, hcast, pyGet_nat _ _ h1]
  have hgE : pad.notes[i].pinned = pad.notes[i - 1].pinned := by simpa using heq
  have h2 : i < (pad.notes.set (i - 1) pad.notes[i]).length := by simpa using h
  have hset1 := pySet_nat pad.notes (i - 1) h1 (pad.notes[i])
  have hset2 := pySet_nat (pad.notes.set (i - 1) pad.notes[i]) i h2 (pad.notes[i - 1])
  simp [hgE, hset1, hset2]

lemma move_down_noop (pad : MemoPad) (index : Int)
    (h : ¬ index < (pad.notes.length : Int) - 1) :
    move_down pad index = (pad, .ok index) := by
  unfold move_down
  rw [if_neg h]

lemma move_down_diff (pad : MemoPad) (i : Nat) (h : i + 1 < pad.notes.length)
    (hne : (pad.notes.get ⟨i, by omega⟩).pinned ≠ (pad.notes.get ⟨i + 1, h⟩).pinned) :
    move_down pad i = (pad, .ok i) := by
  unfold move_down
  rw [if_pos (by omega)]
  have hcast : ((i : Int)) + 1 = ((i + 1 : Nat) : Int) := by omega
  rw [pyGet_nat _ _ (show i < pad.notes.length by omega), hcast, pyGet_nat _ _ h]
  simp only [beq_eq_false_iff_ne.mpr hne, Bool.false_eq_true, if_neg]
  simp

lemma move_down_swap (pad : MemoPad) (i : Nat) (h : i + 1 < pad.notes.length)
    (heq : (pad.notes.get ⟨i, by omega⟩).pinned = (pad.notes.get ⟨i + 1, h⟩).pinned) :
    move_down pad i =
      ({ pad with
          notes := (pad.notes.set (i + 1) (pad.notes.get ⟨i, by omega⟩)).set i
            (pad.notes.get ⟨i + 1, h⟩),
          dirty := true }, .ok ((i : Int) + 1)) := by
  unfold move_down
  rw [if_pos (by omega)]
  have hcast : ((i : Int)) + 1 = ((i + 1 : Nat) : Int) := by omega
  rw [pyGet_nat _ _ (show i < pad.notes.length by omega), hcast, pyGet_nat _ _ h]
  have hgE : pad.notes[i].pinned = pad.notes[i + 1].pinned := by simpa using heq
  have h2 : i < (pad.notes.set (i + 1) pad.notes[i]).length := by
    simpa using show i < pad.notes.length by omega
  have hset1 := pySet_nat pad.notes (i + 1) h (pad.notes[i])
  have hset2 := pySet_nat (pad.notes.set (i + 1) pad.notes[i]) i h2 (pad.notes[i + 1])
  push_cast at hset1
  simp [hgE, hset1, hset2]

/-! ### Structure of the list after a `toggle_pin` or a swap -/

lemma insert_at_spec_pos {l A B : List Note} (x : Note) (hA : ∀ n ∈ A, n.pinned = true)
    (hB : ∀ n ∈ B, n.pinned = false) (hl : A ++ B = l) :
    l.insertIdx (spec_insert_pos l) x = A ++ x :: B := by
  subst hl
  rw [spec_insert_pos_grouped hA hB, insertIdx_append_self]

lemma pinned_front_insert_mid {A B : List Note} (x : Note) (hA : ∀ n ∈ A, n.pinned = true)
    (hB : ∀ n ∈ B, n.pinned = false) : pinned_front (A ++ x :: B) = true := by
  cases hx : x.pinned with
  | false =>
    refine pinned_front_of_grouped hA (fun n hn => ?_)
    rcases List.mem_cons.mp hn with rfl | hn
    · exact hx
    · exact hB n hn
  | true =>
    have h : pinned_front ((A ++ [x]) ++ B) = true :=
      pinned_front_of_grouped
        (fun n hn => by
          rcases List.mem_append.mp hn with hn | hn
          · exact hA n hn
          · simp at hn; subst hn; exact hx) hB
    simpa using h

/-- `toggle_pin` at a valid index of a grouped list: the flipped note lands
exactly between the pinned block and the unpinned block of the remaining
notes. -/
lemma toggle_pin_grouped (pad : MemoPad) (i : Nat) (h : i < pad.notes.length)
    (hp : pinned_front pad.notes = true) :
    ∃ A B, (∀ n ∈ A, n.pinned = true) ∧ (∀ n ∈ B, n.pinned = false) ∧
      A ++ B = pad.notes.eraseIdx i ∧
      toggle_pin pad i =
        ({ pad with
            notes := A ++ { pad.notes.get ⟨i, h⟩ with
                pinned := !(pad.notes.get ⟨i, h⟩).pinned } :: B,
            selected := (A.length : Int),
            dirty := true }, .ok ()) := by
  obtain ⟨hA, hB, hl⟩ := pinned_front_grouped (pinned_front_eraseIdx hp i)
  refine ⟨_, _, hA, hB, hl, ?_⟩
  rw [toggle_pin_nat pad i h, insert_at_spec_pos _ hA hB hl]
  have hpos : spec_insert_pos (pad.notes.eraseIdx i)
      = ((pad.notes.eraseIdx i).takeWhile (fun n => n.pinned)).length := by
    conv_lhs => rw [← hl]
    rw [spec_insert_pos_grouped hA hB]
  rw [hpos]

lemma swap_adj (l : List Note) (j : Nat) (h : j + 1 < l.length) :
    (l.set j (l.get ⟨j + 1, h⟩)).set (j + 1) (l.get ⟨j, by omega⟩)
      = l.take j ++ l.get ⟨j + 1, h⟩ :: l.get ⟨j, by omega⟩ :: l.drop (j + 2) := by
  induction l generalizing j with
  | nil => simp at h
  | cons x t ih =>
    cases j with
    | zero =>
      cases t with
      | nil => simp at h
      | cons y u => simp
    | succ k =>
      have hk : k + 1 < t.length := by simpa using h
      simp only [List.set_cons_succ, List.get_cons_succ, List.take_succ_cons,
        List.drop_succ_cons, List.cons_append, List.cons.injEq, true_and]
      exact ih k hk

lemma swap_adj2 (l : List Note) (j : Nat) (h : j + 1 < l.length) :
    (l.set (j + 1) (l.get ⟨j, by omega⟩)).set j (l.get ⟨j + 1, h⟩)
      = l.take j ++ l.get ⟨j + 1, h⟩ :: l.get ⟨j, by omega⟩ :: l.drop (j + 2) := by
  induction l generalizing j with
  | nil => simp at h
  | cons x t ih =>
    cases j with
    | zero =>
      cases t with
      | nil => simp at h
      | cons y u => simp
    | succ k =>
      have hk : k + 1 < t.length := by simpa using h
      simp only [List.set_cons_succ, List.get_cons_succ, List.take_succ_cons,
        List.drop_succ_cons, List.cons_append, List.cons.injEq, true_and]
      exact ih k hk

lemma drop_eq_two_cons {α : Type} (l : List α) (j : Nat) (h : j + 1 < l.length) :
    l.drop j = l.get ⟨j, by omega⟩ :: l.get ⟨j + 1, h⟩ :: l.drop (j + 2) := by
  rw [List.drop_eq_getElem_cons (by omega), List.drop_eq_getElem_cons (by omega)]
  rfl

lemma swapped_perm (l : List Note) (j : Nat) (h : j + 1 < l.length) :
    (l.take j ++ l.get ⟨j + 1, h⟩ :: l.get ⟨j, by omega⟩ :: l.drop (j + 2)).Perm l := by
  conv_rhs => rw [← List.take_append_drop j l, drop_eq_two_cons l j h]
  exact List.Perm.append_left _ (List.Perm.swap _ _ _)

lemma swapped_map_pinned (l : List Note) (j : Nat) (h : j + 1 < l.length)
    (heq : (l.get ⟨j, by omega⟩).pinned = (l.get ⟨j + 1, h⟩).pinned) :
    (l.take j ++ l.get ⟨j + 1, h⟩ :: l.get ⟨j, by omega⟩ :: l.drop (j + 2)).map
        (fun n => n.pinned)
      = l.map (fun n => n.pinned) := by
  have heqE : l[j].pinned = l[j + 1].pinned := heq
  have hlen : j + 1 < (l.map (fun n => n.pinned)).length := by simpa using h
  simp only [List.map_append, List.map_cons, List.map_take, List.map_drop]
  conv_rhs => rw [← List.take_append_drop j (l.map (fun n => n.pinned)),
    drop_eq_two_cons (l.map (fun n => n.pinned)) j hlen]
  simp only [List.map_take, List.map_drop, List.get_eq_getElem, List.getElem_map]
  rw [heqE]

lemma map_set_same {β : Type} (f : Note → β) (l : List Note) (i : Nat) (h : i < l.length)
    (n' : Note) (hn : f n' = f (l.get ⟨i, h⟩)) :
    (l.set i n').map f = l.map f := by
  rw [List.map_set, hn]
  have hh : i < (l.map f).length := by simpa using h
  have hg : f (l.get ⟨i, h⟩) = (l.map f).get ⟨i, hh⟩ := by simp
  rw [hg, set_get_self]

lemma pinned_front_set_same (l : List Note) (i : Nat) (h : i < l.length) (n' : Note)
    (hn : n'.pinned = (l.get ⟨i, h⟩).pinned) (hp : pinned_front l = true) :
    pinned_front (l.set i n') = true := by
  rw [pinned_front_congr (map_set_same (fun n => n.pinned) l i h n' hn)]
  exact hp

lemma insertIdx_perm (l : List Note) (k : Nat) (hk : k ≤ l.length) (x : Note) :
    (l.insertIdx k x).Perm (x :: l) := by
  rw [insertIdx_eq_take_cons_drop _ _ hk]
  have hmid : (l.take k ++ x :: l.drop k).Perm (x :: (l.take k ++ l.drop k)) :=
    List.perm_middle
  rw [List.take_append_drop] at hmid
  exact hmid

lemma perm_get_cons_eraseIdx (l : List Note) (i : Nat) (h : i < l.length) :
    l.Perm (l.get ⟨i, h⟩ :: l.eraseIdx i) := by
  conv_lhs => rw [← List.take_append_drop i l, List.drop_eq_getElem_cons h]
  rw [List.eraseIdx_eq_take_drop_succ]
  exact List.perm_middle

/-- Outcome of `move_up` at a valid index: either the list is unchanged, or
two same-group neighbours swapped. -/
lemma move_up_cases (pad : MemoPad) (i : Nat) (h : i < pad.notes.length) :
    (move_up pad i).1.notes = pad.notes ∨
    ∃ (j : Nat) (hj : j + 1 < pad.notes.length),
      i = j + 1 ∧
      (pad.notes.get ⟨j, by omega⟩).pinned = (pad.notes.get ⟨j + 1, hj⟩).pinned ∧
      (move_up pad i).1.notes
        = pad.notes.take j ++ pad.notes.get ⟨j + 1, hj⟩ ::
            pad.notes.get ⟨j, by omega⟩ :: pad.notes.drop (j + 2) := by
  by_cases hi0 : 0 < i
  · obtain ⟨j, rfl⟩ : ∃ j, i = j + 1 := ⟨i - 1, by omega⟩
    have h1 : j + 1 - 1 < pad.notes.length := by omega
    by_cases heq : (pad.notes.get ⟨j + 1, h⟩).pinned = (pad.notes.get ⟨j + 1 - 1, h1⟩).pinned
    · right
      refine ⟨j, h, rfl, ?_, ?_⟩
      · exact heq.symm
      · rw [move_up_swap pad (j + 1) (by omega) h h1 heq]
        simp only [Nat.add_sub_cancel]
        exact swap_adj pad.notes j h
    · left
      rw [move_up_diff pad (j + 1) (by omega) h h1 heq]
  · left
    rw [move_up_noop pad i (by omega)]

/-- Outcome of `move_down` at a valid index: either the list is unchanged, or
two same-group neighbours swapped. -/
lemma move_down_cases (pad : MemoPad) (i : Nat) (h : i < pad.notes.length) :
    (move_down pad i).1.notes = pad.notes ∨
    ∃ (hj : i + 1 < pad.notes.length),
      (pad.notes.get ⟨i, h⟩).pinned = (pad.notes.get ⟨i + 1, hj⟩).pinned ∧
      (move_down pad i).1.notes
        = pad.notes.take i ++ pad.notes.get ⟨i + 1, hj⟩ ::
            pad.notes.get ⟨i, h⟩ :: pad.notes.drop (i + 2) := by
  by_cases hi : i + 1 < pad.notes.length
  · by_cases heq : (pad.notes.get ⟨i, by omega⟩).pinned = (pad.notes.get ⟨i + 1, hi⟩).pinned
    · right
      refine ⟨hi, heq, ?_⟩
      rw [move_down_swap pad i hi heq]
      exact swap_adj2 pad.notes i hi
    · left
      rw [move_down_diff pad i hi heq]
  · left
    rw [move_down_noop pad i (by omega)]

/-! ### Sample pads used by witnesses and counterexamples -/

/-- Sample pad: one pinned note followed by one unpinned note. -/
def wpad : MemoPad := { notes := [{ text := "a", pinned := true }, { text := "b" }] }

/-- C1: from any state in which the pinned notes occupy a contiguous prefix,
each note operation at a valid index preserves that property, and the
reordering operations `move_up`/`move_down` leave the sequence of pinned
flags unchanged, so they never move a note across the pinned/unpinned
boundary. -/
theorem C1_pinned_prefix_invariant (pad : MemoPad) (i : Nat)
    (h : i < pad.notes.length) (hp : pinned_front pad.notes = true) :
    pinned_front (toggle_favorite pad i).1.notes = true ∧
    pinned_front (toggle_pin pad i).1.notes = true ∧
    pinned_front (move_up pad i).1.notes = true ∧
    pinned_front (move_down pad i).1.notes = true ∧
    pinned_front (move_left pad i).1.notes = true ∧
    pinned_front (move_right pad i).1.notes = true ∧
    (move_up pad i).1.notes.map (fun n => n.pinned) = pad.notes.map (fun n => n.pinned) ∧
    (move_down pad i).1.notes.map (fun n => n.pinned)
      = pad.notes.map (fun n => n.pinned) := by
  have hup : (move_up pad i).1.notes.map (fun n => n.pinned)
      = pad.notes.map (fun n => n.pinned) := by
    rcases move_up_cases pad i h with he | ⟨j, hj, -, heq, he⟩
    · rw [he]
    · rw [he]; exact swapped_map_pinned pad.notes j hj heq
  have hdown : (move_down pad i).1.notes.map (fun n => n.pinned)
      = pad.notes.map (fun n => n.pinned) := by
    rcases move_down_cases pad i h with he | ⟨hj, heq, he⟩
    · rw [he]
    · rw [he]; exact swapped_map_pinned pad.notes i hj heq
  refine ⟨?_, ?_, ?_, ?_, ?_, ?_, hup, hdown⟩
  · rw [toggle_favorite_nat pad i h]
    exact pinned_front_set_same _ i h _ rfl hp
  · obtain ⟨A, B, hA, hB, -, he⟩ := toggle_pin_grouped pad i h hp
    rw [he]
    exact pinned_front_insert_mid _ hA hB
  · rw [pinned_front_congr hup]; exact hp
  · rw [pinned_front_congr hdown]; exact hp
  · rw [move_left_nat pad i h]
    exact pinned_front_set_same _ i h _ rfl hp
  · rw [move_right_nat pad i h]
    exact pinned_front_set_same _ i h _ rfl hp

/-- Witness for C1 at the concrete pad `[a(pinned), b]` and index 0. -/
theorem C1_pinned_prefix_invariant_witness :
    0 < wpad.notes.length ∧ pinned_front wpad.notes = true ∧
    (pinned_front (toggle_favorite wpad 0).1.notes = true ∧
     pinned_front (toggle_pin wpad 0).1.notes = true ∧
     pinned_front (move_up wpad 0).1.notes = true ∧
     pinned_front (move_down wpad 0).1.notes = true ∧
     pinned_front (move_left wpad 0).1.notes = true ∧
     pinned_front (move_right wpad 0).1.notes = true ∧
     (move_up wpad 0).1.notes.map (fun n => n.pinned)
       = wpad.notes.map (fun n => n.pinned) ∧
     (move_down wpad 0).1.notes.map (fun n => n.pinned)
       = wpad.notes.map (fun n => n.pinned)) :=
  ⟨by decide, by decide, C1_pinned_prefix_invariant wpad 0 (by decide) (by decide)⟩

/-- C10: every note operation at a valid index keeps the number of notes and
the multiset of notes: no note is created or destroyed (the note objects,
identified here by their never-mutated `text`, are only flag-updated in
place, reinserted by `toggle_pin`, or swapped by `move_up`/`move_down`). -/
theorem C10_note_multiset_preserved (pad : MemoPad) (i : Nat)
    (h : i < pad.notes.length) :
    ((toggle_favorite pad i).1.notes.length = pad.notes.length ∧
      ((toggle_favorite pad i).1.notes.map (fun n => n.text)).Perm
        (pad.notes.map (fun n => n.text))) ∧
    ((toggle_pin pad i).1.notes.length = pad.notes.length ∧
      ((toggle_pin pad i).1.notes.map (fun n => n.text)).Perm
        (pad.notes.map (fun n => n.text))) ∧
    ((move_up pad i).1.notes.length = pad.notes.length ∧
      ((move_up pad i).1.notes.map (fun n => n.text)).Perm
        (pad.notes.map (fun n => n.text))) ∧
    ((move_down pad i).1.notes.length = pad.notes.length ∧
      ((move_down pad i).1.notes.map (fun n => n.text)).Perm
        (pad.notes.map (fun n => n.text))) ∧
    ((move_left pad i).1.notes.length = pad.notes.length ∧
      ((move_left pad i).1.notes.map (fun n => n.text)).Perm
        (pad.notes.map (fun n => n.text))) ∧
    ((move_right pad i).1.notes.length = pad.notes.length ∧
      ((move_right pad i).1.notes.map (fun n => n.text)).Perm
        (pad.notes.map (fun n => n.text))) := by
  have lenof : ∀ {l₁ l₂ : List Note},
      (l₁.map (fun n => n.text)).Perm (l₂.map (fun n => n.text)) →
      l₁.length = l₂.length := by
    intro l₁ l₂ hperm
    simpa using hperm.length_eq
  have hfav : ((toggle_favorite pad i).1.notes.map (fun n => n.text)).Perm
      (pad.notes.map (fun n => n.text)) := by
    rw [toggle_favorite_nat pad i h, map_set_same (fun n => n.text) pad.notes i h
      { pad.notes.get ⟨i, h⟩ with favorite := !(pad.notes.get ⟨i, h⟩).favorite } rfl]
  have hpin : ((toggle_pin pad i).1.notes.map (fun n => n.text)).Perm
      (pad.notes.map (fun n => n.text)) := by
    rw [toggle_pin_nat pad i h]
    have hk : spec_insert_pos (pad.notes.eraseIdx i)
        ≤ (pad.notes.eraseIdx i).length := Nat.sub_le _ _
    have h1 := (insertIdx_perm (pad.notes.eraseIdx i) _ hk
      { pad.notes.get ⟨i, h⟩ with
          pinned := !(pad.notes.get ⟨i, h⟩).pinned }).map (fun n => n.text)
    have h2 := (perm_get_cons_eraseIdx pad.notes i h).map (fun n => n.text)
    exact h1.trans h2.symm
  have hup : ((move_up pad i).1.notes.map (fun n => n.text)).Perm
      (pad.notes.map (fun n => n.text)) := by
    rcases move_up_cases pad i h with he | ⟨j, hj, -, -, he⟩
    · rw [he]
    · rw [he]; exact (swapped_perm pad.notes j hj).map (fun n => n.text)
  have hdown : ((move_down pad i).1.notes.map (fun n => n.text)).Perm
      (pad.notes.map (fun n => n.text)) := by
    rcases move_down_cases pad i h with he | ⟨hj, -, he⟩
    · rw [he]
    · rw [he]; exact (swapped_perm pad.notes i hj).map (fun n => n.text)
  have hleft : ((move_left pad i).1.notes.map (fun n => n.text)).Perm
      (pad.notes.map (fun n => n.text)) := by
    rw [move_left_nat pad i h, map_set_same (fun n => n.text) pad.notes i h
      { pad.notes.get ⟨i, h⟩ with
          indent := max 0 ((pad.notes.get ⟨i, h⟩).indent - 1) } rfl]
  have hright : ((move_right pad i).1.notes.map (fun n => n.text)).Perm
      (pad.notes.map (fun n => n.text)) := by
    rw [move_right_nat pad i h, map_set_same (fun n => n.text) pad.notes i h
      { pad.notes.get ⟨i, h⟩ with
          indent := min MAX_INDENT ((pad.notes.get ⟨i, h⟩).indent + 1) } rfl]
  exact ⟨⟨lenof hfav, hfav⟩, ⟨lenof hpin, hpin⟩, ⟨lenof hup, hup⟩,
    ⟨lenof hdown, hdown⟩, ⟨lenof hleft, hleft⟩, ⟨lenof hright, hright⟩⟩

/-- Witness for C10 at the concrete pad `[a(pinned), b]` and index 1. -/
theorem C10_note_multiset_preserved_witness :
    1 < wpad.notes.length ∧
    (((toggle_favorite wpad 1).1.notes.length = wpad.notes.length ∧
      ((toggle_favorite wpad 1).1.notes.map (fun n => n.text)).Perm
        (wpad.notes.map (fun n => n.text))) ∧
    ((toggle_pin wpad 1).1.notes.length = wpad.notes.length ∧
      ((toggle_pin wpad 1).1.notes.map (fun n => n.text)).Perm
        (wpad.notes.map (fun n => n.text))) ∧
    ((move_up wpad 1).1.notes.length = wpad.notes.length ∧
      ((move_up wpad 1).1.notes.map (fun n => n.text)).Perm
        (wpad.notes.map (fun n => n.text))) ∧
    ((move_down wpad 1).1.notes.length = wpad.notes.length ∧
      ((move_down wpad 1).1.notes.map (fun n => n.text)).Perm
        (wpad.notes.map (fun n => n.text))) ∧
    ((move_left wpad 1).1.notes.length = wpad.notes.length ∧
      ((move_left wpad 1).1.notes.map (fun n => n.text)).Perm
        (wpad.notes.map (fun n => n.text))) ∧
    ((move_right wpad 1).1.notes.length = wpad.notes.length ∧
      ((move_right wpad 1).1.notes.map (fun n => n.text)).Perm
        (wpad.notes.map (fun n => n.text)))) :=
  ⟨by decide, C10_note_multiset_preserved wpad 1 (by decide)⟩

lemma eraseIdx_append_cons_self (A B : List Note) (x : Note) :
    (A ++ x :: B).eraseIdx A.length = A ++ B := by
  rw [List.eraseIdx_eq_take_drop_succ]
  congr 1
  · exact List.take_left A _
  · have h1 : A ++ x :: B = (A ++ [x]) ++ B := by simp
    rw [h1, show A.length + 1 = (A ++ [x]).length by simp]
    exact List.drop_left _ _

lemma get_append_cons_self (A B : List Note) (x : Note)
    (h : A.length < (A ++ x :: B).length) :
    (A ++ x :: B).get ⟨A.length, h⟩ = x := by
  rw [List.get_eq_getElem, List.getElem_append_right (le_refl _)]
  simp

/-- C2: `toggle_pin` at a valid index removes the note at that index, flips
its pinned flag, and reinserts it at the position immediately after the last
currently-pinned remaining note (`spec_insert_pos`, which is 0 when none is
pinned) — by one and the same rule whether the flag was just set or just
cleared; and under the grouping invariant a just-unpinned note becomes the
first entry of the unpinned group. -/
theorem C2_toggle_pin_reinserts_after_last_pinned (pad : MemoPad) (i : Nat)
    (h : i < pad.notes.length) :
    toggle_pin pad i =
      ({ pad with
          notes := (pad.notes.eraseIdx i).insertIdx
            (spec_insert_pos (pad.notes.eraseIdx i))
            { pad.notes.get ⟨i, h⟩ with pinned := !(pad.notes.get ⟨i, h⟩).pinned },
          selected := ((spec_insert_pos (pad.notes.eraseIdx i) : Nat) : Int),
          dirty := true }, .ok ()) ∧
    (pinned_front pad.notes = true → (pad.notes.get ⟨i, h⟩).pinned = true →
      ∃ A B, (∀ n ∈ A, n.pinned = true) ∧ (∀ n ∈ B, n.pinned = false) ∧
        (toggle_pin pad i).1.notes
          = A ++ { pad.notes.get ⟨i, h⟩ with pinned := false } :: B) := by
  refine ⟨toggle_pin_nat pad i h, fun hinv hpin => ?_⟩
  obtain ⟨A, B, hA, hB, -, he⟩ := toggle_pin_grouped pad i h hinv
  refine ⟨A, B, hA, hB, ?_⟩
  have hpinE : pad.notes[i].pinned = true := hpin
  rw [he]
  simp [hpinE]

/-- Witness for C2 at the concrete pad `[a(pinned), b]` and index 0. -/
theorem C2_toggle_pin_reinserts_after_last_pinned_witness :
    0 < wpad.notes.length ∧
    (toggle_pin wpad 0 =
      ({ wpad with
          notes := (wpad.notes.eraseIdx 0).insertIdx
            (spec_insert_pos (wpad.notes.eraseIdx 0))
            { wpad.notes.get ⟨0, by decide⟩ with
                pinned := !(wpad.notes.get ⟨0, by decide⟩).pinned },
          selected := ((spec_insert_pos (wpad.notes.eraseIdx 0) : Nat) : Int),
          dirty := true }, .ok ()) ∧
    (pinned_front wpad.notes = true → (wpad.notes.get ⟨0, by decide⟩).pinned = true →
      ∃ A B, (∀ n ∈ A, n.pinned = true) ∧ (∀ n ∈ B, n.pinned = false) ∧
        (toggle_pin wpad 0).1.notes
          = A ++ { wpad.notes.get ⟨0, by decide⟩ with pinned := false } :: B)) :=
  ⟨by decide, C2_toggle_pin_reinserts_after_last_pinned wpad 0 (by decide)⟩

/-- C3 counterexample: on the pad `[a(pinned), b]`, `toggle_pin 1` yields
`[a(pinned), b(pinned)]` — `b` is appended after the last pinned note, not
moved to index 0, so the sequence is not `[b(pinned), a(pinned)]` as the
claim states. -/
theorem C3_counterexample :
    (toggle_pin wpad 1).1.notes.map (fun n => n.text) = ["a", "b"] ∧
    (toggle_pin wpad 1).1.notes.map (fun n => n.text) ≠ ["b", "a"] ∧
    (toggle_pin wpad 1).1.notes.map (fun n => n.pinned) = [true, true] := by
  decide

/-- C3 (amended): `toggle_pin` on an unpinned note at a valid index of a
grouped pad moves it to be the last pinned note (right after the previously
pinned block `A`, before the unpinned block `B`); applying `toggle_pin` again
at its new index returns it to the first position of the unpinned group; on
`[a(pinned), b]`, `toggle_pin 1` pins `b` in place, giving
`[a(pinned), b(pinned)]`. -/
theorem C3_unpin_repin_behaviour (pad : MemoPad) (i : Nat)
    (h : i < pad.notes.length) (hinv : pinned_front pad.notes = true)
    (hunp : (pad.notes.get ⟨i, h⟩).pinned = false) :
    (∃ A B, (∀ n ∈ A, n.pinned = true) ∧ (∀ n ∈ B, n.pinned = false) ∧
      (toggle_pin pad i).1.notes
        = A ++ { pad.notes.get ⟨i, h⟩ with pinned := true } :: B ∧
      (toggle_pin (toggle_pin pad i).1 A.length).1.notes
        = A ++ { pad.notes.get ⟨i, h⟩ with pinned := false } :: B) ∧
    (toggle_pin wpad 1).1.notes
      = [{ text := "a", pinned := true }, { text := "b", pinned := true }] := by
  obtain ⟨A, B, hA, hB, -, he⟩ := toggle_pin_grouped pad i h hinv
  have hx : ({ pad.notes.get ⟨i, h⟩ with pinned := !(pad.notes.get ⟨i, h⟩).pinned } : Note)
      = { pad.notes.get ⟨i, h⟩ with pinned := true } := by
    rw [hunp]
    rfl
  have hnotes1 : (toggle_pin pad i).1.notes
      = A ++ { pad.notes.get ⟨i, h⟩ with pinned := true } :: B := by
    rw [he, hx]
  refine ⟨⟨A, B, hA, hB, hnotes1, ?_⟩, by decide⟩
  have h2 : A.length < (toggle_pin pad i).1.notes.length := by
    rw [hnotes1]
    simp
  have hget : (toggle_pin pad i).1.notes.get ⟨A.length, h2⟩
      = { pad.notes.get ⟨i, h⟩ with pinned := true } := by
    rw [List.get_eq_getElem]
    simp only [hnotes1]
    rw [List.getElem_append_right (le_refl _)]
    simp
  have herase : (toggle_pin pad i).1.notes.eraseIdx A.length = A ++ B := by
    rw [hnotes1]
    exact eraseIdx_append_cons_self A B _
  have hx2 : ({ (toggle_pin pad i).1.notes.get ⟨A.length, h2⟩ with
      pinned := !((toggle_pin pad i).1.notes.get ⟨A.length, h2⟩).pinned } : Note)
      = { pad.notes.get ⟨i, h⟩ with pinned := false } := by
    rw [hget]
    rfl
  calc (toggle_pin (toggle_pin pad i).1 A.length).1.notes
      = ((toggle_pin pad i).1.notes.eraseIdx A.length).insertIdx
          (spec_insert_pos ((toggle_pin pad i).1.notes.eraseIdx A.length))
          { (toggle_pin pad i).1.notes.get ⟨A.length, h2⟩ with
              pinned := !((toggle_pin pad i).1.notes.get ⟨A.length, h2⟩).pinned } := by
        rw [toggle_pin_nat (toggle_pin pad i).1 A.length h2]
    _ = (A ++ B).insertIdx (spec_insert_pos (A ++ B))
          { pad.notes.get ⟨i, h⟩ with pinned := false } := by
        rw [herase, hx2]
    _ = A ++ { pad.notes.get ⟨i, h⟩ with pinned := false } :: B :=
        insert_at_spec_pos _ hA hB rfl

/-! ### Out-of-range behaviour (C4) -/

/-- Empty pad used by the C4 scenario. -/
def epad : MemoPad := { notes := [] }

lemma pyGet_oob (xs : List Note) (i : Int)
    (h : (xs.length : Int) ≤ i ∨ i < -(xs.length : Int)) :
    pyGet xs i = .error .indexError := by
  unfold pyGet
  rcases h with h | h
  · have h1 : ¬ i < 0 := by omega
    have h2 : (0 : Int) ≤ i := by omega
    have h3 : xs.length ≤ i.toNat := by omega
    simp [h1, h2, List.getElem?_eq_none h3]
  · have h1 : i < 0 := by omega
    have h2 : ¬ (0 : Int) ≤ i + xs.length := by omega
    simp [h1, h2]

lemma pyPop_oob (xs : List Note) (i : Int)
    (h : (xs.length : Int) ≤ i ∨ i < -(xs.length : Int)) :
    pyPop xs i = .error .indexError := by
  unfold pyPop
  rcases h with h | h
  · have h1 : ¬ i < 0 := by omega
    have h2 : (0 : Int) ≤ i := by omega
    have h3 : xs.length ≤ i.toNat := by omega
    simp [h1, h2, List.getElem?_eq_none h3]
  · have h1 : i < 0 := by omega
    have h2 : ¬ (0 : Int) ≤ i + xs.length := by omega
    simp [h1, h2]

/-- C4 counterexample: on an empty pad, `move_up 0` and `move_down 0` return
index 0 without signalling any error, and on a nonempty pad the negative
index −1 is accepted (Python-style) and mutates the last note — contradicting
the claim that every index outside `[0, len)` signals out-of-range and leaves
the collection unmodified. -/
theorem C4_counterexample :
    move_up epad 0 = (epad, .ok 0) ∧
    move_down epad 0 = (epad, .ok 0) ∧
    toggle_favorite wpad (-1)
      = ({ wpad with
            notes := [{ text := "a", pinned := true },
                      { text := "b", favorite := true }],
            dirty := true }, .ok ()) := by
  refine ⟨rfl, rfl, rfl⟩

/-- C4 (amended): `toggle_favorite`, `toggle_pin`, `move_left` and
`move_right` raise IndexError and leave the pad unmodified exactly when
`index ≥ len` or `index < -len` (negative indexes in `[-len, -1]` address
from the end, Python-style); `move_up` raises only when `0 < index` and
`index ≥ len`, and silently returns the index unchanged when `index ≤ 0`;
`move_down` silently returns the index unchanged when `index ≥ len - 1` and
raises when `index < -len` (and the guard `index < len - 1` holds). -/
theorem C4_out_of_range_behaviour (pad : MemoPad) (index : Int) :
    (((pad.notes.length : Int) ≤ index ∨ index < -(pad.notes.length : Int)) →
      (toggle_favorite pad index = (pad, .error .indexError) ∧
       toggle_pin pad index = (pad, .error .indexError) ∧
       move_left pad index = (pad, .error .indexError) ∧
       move_right pad index = (pad, .error .indexError))) ∧
    (0 < index → (pad.notes.length : Int) ≤ index →
      move_up pad index = (pad, .error .indexError)) ∧
    (index ≤ 0 → move_up pad index = (pad, .ok index)) ∧
    ((pad.notes.length : Int) - 1 ≤ index → move_down pad index = (pad, .ok index)) ∧
    (index < -(pad.notes.length : Int) → index < (pad.notes.length : Int) - 1 →
      move_down pad index = (pad, .error .indexError)) := by
  refine ⟨fun h => ⟨?_, ?_, ?_, ?_⟩, fun h0 hlen => ?_, fun h0 => ?_, fun hlen => ?_,
    fun hneg hguard => ?_⟩
  · unfold toggle_favorite
    rw [pyGet_oob _ _ h]
  · unfold toggle_pin
    rw [pyPop_oob _ _ h]
  · unfold move_left
    rw [pyGet_oob _ _ h]
  · unfold move_right
    rw [pyGet_oob _ _ h]
  · unfold move_up
    rw [if_pos h0, pyGet_oob _ _ (Or.inl hlen)]
  · exact move_up_noop pad index (by omega)
  · exact move_down_noop pad index (by omega)
  · unfold move_down
    rw [if_pos hguard, pyGet_oob _ _ (Or.inr hneg)]

/-- Witness for C4 (amended) on the empty pad at index 0: `toggle_favorite`
raises IndexError while `move_up` and `move_down` silently return 0. -/
theorem C4_out_of_range_behaviour_witness :
    toggle_favorite epad 0 = (epad, .error .indexError) ∧
    move_up epad 0 = (epad, .ok 0) ∧
    move_down epad 0 = (epad, .ok 0) :=
  ⟨((C4_out_of_range_behaviour epad 0).1 (by decide)).1,
   (C4_out_of_range_behaviour epad 0).2.2.1 (by decide),
   (C4_out_of_range_behaviour epad 0).2.2.2.1 (by decide)⟩

/-- Witness for C3 (amended) at the concrete pad `[a(pinned), b]`, index 1. -/
theorem C3_unpin_repin_behaviour_witness :
    1 < wpad.notes.length ∧ pinned_front wpad.notes = true ∧
    (wpad.notes.get ⟨1, by decide⟩).pinned = false ∧
    ((∃ A B, (∀ n ∈ A, n.pinned = true) ∧ (∀ n ∈ B, n.pinned = false) ∧
      (toggle_pin wpad 1).1.notes
        = A ++ { wpad.notes.get ⟨1, by decide⟩ with pinned := true } :: B ∧
      (toggle_pin (toggle_pin wpad 1).1 A.length).1.notes
        = A ++ { wpad.notes.get ⟨1, by decide⟩ with pinned := false } :: B) ∧
    (toggle_pin wpad 1).1.notes
      = [{ text := "a", pinned := true }, { text := "b", pinned := true }]) :=
  ⟨by decide, by decide, by decide,
   C3_unpin_repin_behaviour wpad 1 (by decide) (by decide) (by decide)⟩

/-! ### Load behaviour on malformed stores (C5) -/

/-- `load` on a successfully parsed top-level dict, written out. -/
lemma load_parsed_obj (pad : MemoPad) (fs : List (String × JValue)) :
    load pad (Store.parsed (.jobj fs)) =
      match pyIter (jget fs "notes" (.jlist [])) with
      | .error e => ({ pad with notes := [] }, .error e)
      | .ok xs =>
        match load_loop xs [] with
        | (ns, .error e) => ({ pad with notes := ns }, .error e)
        | (ns, .ok ()) =>
          match pyInt (jget fs "zoom" (.jint 0)) with
          | .error e => ({ pad with notes := ns }, .error e)
          | .ok z => ({ pad with notes := ns, zoom := z, dirty := false }, .ok ()) :=
  rfl

lemma load_loop_skips_strs (cs : List Char) (acc : List Note) :
    load_loop (cs.map (fun c => JValue.jstr (String.mk [c]))) acc = (acc, .ok ()) := by
  induction cs with
  | nil => rfl
  | cons c t ih =>
    simp only [List.map_cons, load_loop, load_note]
    exact ih

/-- C5 counterexample: two stores that exist and parse but are malformed in
shape — a note entry whose `indent` is the string `"x"`, and a `notes` value
that is the number 5 — make `load` raise (`int("x")` raises ValueError,
iterating an int raises TypeError), contradicting the claim that malformed
data never raises and always resets to an empty collection. -/
theorem C5_counterexample :
    (load epad (Store.parsed
        (.jobj [("notes", .jlist [.jobj [("indent", .jstr "x")]])]))).2
      = .error .valueError ∧
    (load epad (Store.parsed (.jobj [("notes", .jint 5)]))).2
      = .error .typeError := ⟨rfl, rfl⟩

/-- C5 (amended): `load` silently resets to an empty collection with zoom 0
and dirty cleared when the store is unparseable, or parses to a non-dict top
level, or has a string-valued `"notes"` key (so `{"notes": "not-a-list"}`
loads as an empty collection with zoom 0 and no error); but a non-iterable
`"notes"` value (e.g. a number) raises TypeError, and a note field or zoom
that `int()` cannot convert raises (see the counterexample). -/
theorem C5_malformed_load_recovery (pad : MemoPad) :
    (load pad Store.corrupt
      = ({ pad with notes := [], zoom := 0, dirty := false }, .ok ())) ∧
    (∀ v : JValue, (∀ fs, v ≠ JValue.jobj fs) →
      load pad (Store.parsed v)
        = ({ pad with notes := [], zoom := 0, dirty := false }, .ok ())) ∧
    (∀ s : String, load pad (Store.parsed (.jobj [("notes", .jstr s)]))
      = ({ pad with notes := [], zoom := 0, dirty := false }, .ok ())) ∧
    (∀ n : Int, (load pad (Store.parsed (.jobj [("notes", .jint n)]))).2
      = .error .typeError) := by
  refine ⟨rfl, fun v hv => ?_, fun s => ?_, fun n => rfl⟩
  · cases v with
    | jobj fs => exact absurd rfl (hv fs)
    | jnull => rfl
    | jbool b => rfl
    | jint n => rfl
    | jstr s => rfl
    | jlist xs => rfl
  · rw [load_parsed_obj]
    have hitems : jget [("notes", JValue.jstr s)] "notes" (.jlist []) = .jstr s := rfl
    rw [hitems]
    simp only [pyIter]
    rw [load_loop_skips_strs]
    rfl

/-- Witness for C5 (amended): a null top level and the literal
`{"notes": "not-a-list"}` both load as an empty pad with zoom 0, no error. -/
theorem C5_malformed_load_recovery_witness :
    load epad (Store.parsed .jnull)
      = ({ epad with notes := [], zoom := 0, dirty := false }, .ok ()) ∧
    load epad (Store.parsed (.jobj [("notes", .jstr "not-a-list")]))
      = ({ epad with notes := [], zoom := 0, dirty := false }, .ok ()) :=
  ⟨(C5_malformed_load_recovery epad).2.1 .jnull
      (fun _ h => JValue.noConfusion h),
   (C5_malformed_load_recovery epad).2.2.1 "not-a-list"⟩

/-! ### Save/load round trip (C6) -/

lemma load_loop_to_dict (l : List Note) (acc : List Note)
    (h : ∀ n ∈ l, 0 ≤ n.indent ∧ n.indent ≤ MAX_INDENT) :
    load_loop (l.map to_dict) acc = (acc ++ l, .ok ()) := by
  induction l generalizing acc with
  | nil => simp [load_loop]
  | cons n t ih =>
    have hn := h n (by simp)
    have hclamp : max 0 (min MAX_INDENT n.indent) = n.indent := by
      simp only [MAX_INDENT] at *
      omega
    have hnote : load_note (to_dict n) = .ok (some n) := by
      have h1 : load_note (to_dict n)
          = .ok (some { text := n.text, favorite := n.favorite, pinned := n.pinned,
                        indent := max 0 (min MAX_INDENT n.indent) }) := rfl
      rw [h1, hclamp]
    simp only [List.map_cons, load_loop, hnote]
    rw [ih (acc ++ [n]) (fun x hx => h x (by simp [hx]))]
    simp

/-- C6: for a pad whose note indents and zoom are all inside `[0, 8]`, a
`save` followed by a fresh `load` from the written store reproduces an equal
sequence of notes — same text, favorite, pinned and indent in the same
order — and the same zoom. -/
theorem C6_save_load_round_trip (pad q : MemoPad)
    (hind : ∀ n ∈ pad.notes, 0 ≤ n.indent ∧ n.indent ≤ MAX_INDENT)
    (_hz0 : 0 ≤ pad.zoom) (_hz8 : pad.zoom ≤ 8) :
    load q (Store.parsed (save pad).2)
      = ({ q with notes := pad.notes, zoom := pad.zoom, dirty := false }, .ok ()) := by
  have hsave : (save pad).2
      = .jobj [("notes", .jlist (pad.notes.map to_dict)), ("zoom", .jint pad.zoom)] := rfl
  rw [hsave, load_parsed_obj]
  have hitems : jget [("notes", JValue.jlist (pad.notes.map to_dict)),
      ("zoom", JValue.jint pad.zoom)] "notes" (.jlist [])
      = .jlist (pad.notes.map to_dict) := rfl
  rw [hitems]
  simp only [pyIter]
  rw [load_loop_to_dict pad.notes [] hind]
  simp only [List.nil_append]
  rfl

/-- Witness for C6 at the concrete pad `[a(pinned), b]` with zoom 0. -/
theorem C6_save_load_round_trip_witness :
    (∀ n ∈ wpad.notes, 0 ≤ n.indent ∧ n.indent ≤ MAX_INDENT) ∧
    0 ≤ wpad.zoom ∧ wpad.zoom ≤ 8 ∧
    load epad (Store.parsed (save wpad).2)
      = ({ epad with notes := wpad.notes, zoom := wpad.zoom, dirty := false }, .ok ()) :=
  ⟨by decide, by decide, by decide,
   C6_save_load_round_trip wpad epad (by decide) (by decide) (by decide)⟩

/-! ### Indent range invariant (C7) -/

lemma load_note_range (item : JValue) (n0 : Note)
    (h : load_note item = .ok (some n0)) :
    0 ≤ n0.indent ∧ n0.indent ≤ MAX_INDENT := by
  cases item with
  | jobj fs =>
    simp only [load_note] at h
    cases hpi : pyInt (jget fs "indent" (.jint 0)) with
    | error e => rw [hpi] at h; cases h
    | ok v =>
      rw [hpi] at h
      cases h
      simp only [MAX_INDENT]
      omega
  | jnull => cases h
  | jbool b => cases h
  | jint n => cases h
  | jstr s => cases h
  | jlist xs => cases h

lemma load_loop_range (items : List JValue) (acc ns : List Note)
    (r : Except PyErr Unit)
    (hacc : ∀ n ∈ acc, 0 ≤ n.indent ∧ n.indent ≤ MAX_INDENT)
    (heq : load_loop items acc = (ns, r)) :
    ∀ n ∈ ns, 0 ≤ n.indent ∧ n.indent ≤ MAX_INDENT := by
  induction items generalizing acc with
  | nil =>
    simp only [load_loop] at heq
    cases heq
    exact hacc
  | cons item t ih =>
    simp only [load_loop] at heq
    cases hn : load_note item with
    | error e =>
      rw [hn] at heq
      cases heq
      exact hacc
    | ok o =>
      rw [hn] at heq
      cases o with
      | none => exact ih acc hacc heq
      | some n0 =>
        refine ih (acc ++ [n0]) ?_ heq
        intro n hmem
        rcases List.mem_append.mp hmem with hmem | hmem
        · exact hacc n hmem
        · have : n = n0 := by simpa using hmem
          subst this
          exact load_note_range item n hn

/-- Any pad state produced by a successful `load` has every indent clamped
into `[0, MAX_INDENT]`. -/
lemma load_ok_range (q m : MemoPad) (s : Store) (heq : load q s = (m, .ok ())) :
    ∀ n ∈ m.notes, 0 ≤ n.indent ∧ n.indent ≤ MAX_INDENT := by
  cases s with
  | missing =>
    simp only [load] at heq
    cases heq
    intro n hmem
    simp only [seed_notes, List.mem_cons, List.not_mem_nil, or_false] at hmem
    rcases hmem with rfl | rfl | rfl <;> simp [MAX_INDENT]
  | corrupt =>
    simp only [load] at heq
    cases heq
    intro n hmem
    simp at hmem
  | parsed v =>
    simp only [load] at heq
    split at heq
    · exact absurd (congrArg Prod.snd heq) (by simp)
    · next xs hxs =>
      split at heq
      · exact absurd (congrArg Prod.snd heq) (by simp)
      · next ns hloop =>
        split at heq
        · exact absurd (congrArg Prod.snd heq) (by simp)
        · next z hz =>
          cases heq
          exact load_loop_range xs [] ns (.ok ()) (by simp) hloop

/-- C7: every note's indent stays in `[0, MAX_INDENT]` = `[0, 8]`:
`move_left` saturates at 0 and `move_right` at 8 without erroring (a call at
the bound leaves the notes unchanged), every successful `load` clamps all
stored indents into the range, and a stored indent of 99 loads as 8. -/
theorem C7_indent_clamped (pad : MemoPad) (i : Nat) (h : i < pad.notes.length)
    (hrange : ∀ n ∈ pad.notes, 0 ≤ n.indent ∧ n.indent ≤ MAX_INDENT) :
    (∀ n ∈ (move_left pad i).1.notes, 0 ≤ n.indent ∧ n.indent ≤ MAX_INDENT) ∧
    (∀ n ∈ (move_right pad i).1.notes, 0 ≤ n.indent ∧ n.indent ≤ MAX_INDENT) ∧
    (move_left pad i).2 = .ok () ∧
    (move_right pad i).2 = .ok () ∧
    ((pad.notes.get ⟨i, h⟩).indent = 0 → (move_left pad i).1.notes = pad.notes) ∧
    ((pad.notes.get ⟨i, h⟩).indent = MAX_INDENT →
      (move_right pad i).1.notes = pad.notes) ∧
    (∀ (q m : MemoPad) (s : Store), load q s = (m, .ok ()) →
      ∀ n ∈ m.notes, 0 ≤ n.indent ∧ n.indent ≤ MAX_INDENT) ∧
    (load epad (Store.parsed (.jobj [("notes",
        .jlist [.jobj [("text", .jstr "a"), ("indent", .jint 99)]])]))).1.notes
      = [{ text := "a", indent := 8 }] := by
  refine ⟨?_, ?_, ?_, ?_, ?_, ?_, load_ok_range, rfl⟩
  · rw [move_left_nat pad i h]
    intro n hmem
    rcases List.mem_or_eq_of_mem_set hmem with hmem | rfl
    · exact hrange n hmem
    · have hg := hrange _ (pad.notes.get_mem i h)
      have hgE : 0 ≤ pad.notes[i].indent ∧ pad.notes[i].indent ≤ MAX_INDENT := hg
      simp only [MAX_INDENT] at *
      constructor <;> simp <;> omega
  · rw [move_right_nat pad i h]
    intro n hmem
    rcases List.mem_or_eq_of_mem_set hmem with hmem | rfl
    · exact hrange n hmem
    · have hg := hrange _ (pad.notes.get_mem i h)
      have hgE : 0 ≤ pad.notes[i].indent ∧ pad.notes[i].indent ≤ MAX_INDENT := hg
      simp only [MAX_INDENT] at *
      constructor <;> simp <;> omega
  · rw [move_left_nat pad i h]
  · rw [move_right_nat pad i h]
  · intro h0
    rw [move_left_nat pad i h]
    have hm : max 0 ((0 : Int) - 1) = (0 : Int) := by norm_num
    have hv : ({ pad.notes.get ⟨i, h⟩ with
        indent := max 0 ((pad.notes.get ⟨i, h⟩).indent - 1) } : Note)
        = pad.notes.get ⟨i, h⟩ := by
      rw [h0, hm, ← h0]
    rw [hv, set_get_self]
  · intro h8
    rw [move_right_nat pad i h]
    have hm : min MAX_INDENT (MAX_INDENT + 1) = MAX_INDENT := by
      simp [MAX_INDENT]
    have hv : ({ pad.notes.get ⟨i, h⟩ with
        indent := min MAX_INDENT ((pad.notes.get ⟨i, h⟩).indent + 1) } : Note)
        = pad.notes.get ⟨i, h⟩ := by
      rw [h8, hm, ← h8]
    rw [hv, set_get_self]

/-- Witness for C7 at the concrete pad `[a(pinned), b]`, index 0. -/
theorem C7_indent_clamped_witness :
    0 < wpad.notes.length ∧
    (∀ n ∈ wpad.notes, 0 ≤ n.indent ∧ n.indent ≤ MAX_INDENT) ∧
    ((∀ n ∈ (move_left wpad 0).1.notes, 0 ≤ n.indent ∧ n.indent ≤ MAX_INDENT) ∧
    (∀ n ∈ (move_right wpad 0).1.notes, 0 ≤ n.indent ∧ n.indent ≤ MAX_INDENT) ∧
    (move_left wpad 0).2 = .ok () ∧
    (move_right wpad 0).2 = .ok () ∧
    ((wpad.notes.get ⟨0, by decide⟩).indent = 0 →
      (move_left wpad 0).1.notes = wpad.notes) ∧
    ((wpad.notes.get ⟨0, by decide⟩).indent = MAX_INDENT →
      (move_right wpad 0).1.notes = wpad.notes) ∧
    (∀ (q m : MemoPad) (s : Store), load q s = (m, .ok ()) →
      ∀ n ∈ m.notes, 0 ≤ n.indent ∧ n.indent ≤ MAX_INDENT) ∧
    (load epad (Store.parsed (.jobj [("notes",
        .jlist [.jobj [("text", .jstr "a"), ("indent", .jint 99)]])]))).1.notes
      = [{ text := "a", indent := 8 }]) :=
  ⟨by decide, by decide, C7_indent_clamped wpad 0 (by decide) (by decide)⟩

/-! ### Zoom behaviour (C8, C9) -/

/-- Apply a sequence of zoom operations, `true` for `zoom_in` and `false`
for `zoom_out`. -/
def zoom_seq (ops : List Bool) (pad : MemoPad) : MemoPad :=
  ops.foldl (fun p b => if b then zoom_in p else zoom_out p) pad

/-- Pad with zoom already at the upper bound. -/
def zpad8 : MemoPad := { notes := [], zoom := 8 }

/-- Single-note pad with indent 0 and a clean dirty flag. -/
def pad1n : MemoPad := { notes := [{ text := "a" }] }

/-- C8 counterexample: `load` does not clamp the stored zoom — a store with
`"zoom": 99` loads with zoom 99, outside `[0, 8]`. -/
theorem C8_counterexample :
    (load epad (Store.parsed (.jobj [("zoom", .jint 99)]))).1.zoom = 99 ∧
    ¬ ((load epad (Store.parsed (.jobj [("zoom", .jint 99)]))).1.zoom ≤ 8) := by
  refine ⟨rfl, by decide⟩

lemma zoom_seq_range (ops : List Bool) :
    ∀ pad : MemoPad, 0 ≤ pad.zoom → pad.zoom ≤ 8 →
      0 ≤ (zoom_seq ops pad).zoom ∧ (zoom_seq ops pad).zoom ≤ 8 := by
  induction ops with
  | nil => intro pad h0 h8; exact ⟨h0, h8⟩
  | cons b t ih =>
    intro pad h0 h8
    simp only [zoom_seq, List.foldl_cons]
    cases b with
    | true =>
      exact ih (zoom_in pad) (by simp [zoom_in]; omega) (by simp [zoom_in])
    | false =>
      exact ih (zoom_out pad) (by simp [zoom_out]) (by simp [zoom_out]; omega)

/-- C8 (amended): from any in-range starting zoom, every sequence of
`zoom_in`/`zoom_out` calls keeps zoom inside `[0, 8]`, saturating at the
bounds without error; but `load` does not clamp: it copies the stored zoom
value through unchanged (see the counterexample for an out-of-range load). -/
theorem C8_zoom_range (pad : MemoPad) (h0 : 0 ≤ pad.zoom) (h8 : pad.zoom ≤ 8) :
    (∀ ops : List Bool,
      0 ≤ (zoom_seq ops pad).zoom ∧ (zoom_seq ops pad).zoom ≤ 8) ∧
    (pad.zoom = 8 → (zoom_in pad).zoom = 8) ∧
    (pad.zoom = 0 → (zoom_out pad).zoom = 0) ∧
    (∀ (q : MemoPad) (z : Int),
      (load q (Store.parsed (.jobj [("zoom", .jint z)]))).1.zoom = z) := by
  refine ⟨fun ops => zoom_seq_range ops pad h0 h8, fun he => ?_, fun he => ?_,
    fun q z => rfl⟩
  · simp [zoom_in, he]
  · simp [zoom_out, he]

/-- Witness for C8 (amended) on the empty pad with zoom 0. -/
theorem C8_zoom_range_witness :
    0 ≤ epad.zoom ∧ epad.zoom ≤ 8 ∧
    ((∀ ops : List Bool,
      0 ≤ (zoom_seq ops epad).zoom ∧ (zoom_seq ops epad).zoom ≤ 8) ∧
    (epad.zoom = 8 → (zoom_in epad).zoom = 8) ∧
    (epad.zoom = 0 → (zoom_out epad).zoom = 0) ∧
    (∀ (q : MemoPad) (z : Int),
      (load q (Store.parsed (.jobj [("zoom", .jint z)]))).1.zoom = z)) :=
  ⟨by decide, by decide, C8_zoom_range epad (by decide) (by decide)⟩

/-- C9 counterexample: `move_left` at an indent already saturated at 0 leaves
the notes unchanged but still sets the dirty flag, and `zoom_in` at zoom 8
leaves the zoom unchanged but still sets the dirty flag — contradicting the
claim that dirty is marked only on an actual change. -/
theorem C9_counterexample :
    (move_left pad1n 0).1.notes = pad1n.notes ∧
    (move_left pad1n 0).1.dirty = true ∧
    pad1n.dirty = false ∧
    (zoom_in zpad8).zoom = zpad8.zoom ∧
    (zoom_in zpad8).dirty = true ∧
    zpad8.dirty = false := by
  refine ⟨rfl, rfl, rfl, rfl, rfl, rfl⟩

/-- C9 (amended): `move_left`/`move_right` at a valid index and
`zoom_in`/`zoom_out` set the dirty flag unconditionally on every call, even
when the indent or zoom is saturated at its bound and does not change. -/
theorem C9_dirty_unconditional (pad : MemoPad) (i : Nat)
    (h : i < pad.notes.length) :
    (move_left pad i).1.dirty = true ∧
    (move_right pad i).1.dirty = true ∧
    (zoom_in pad).dirty = true ∧
    (zoom_out pad).dirty = true :=
  ⟨by rw [move_left_nat pad i h], by rw [move_right_nat pad i h], rfl, rfl⟩

/-- Witness for C9 (amended) on the single-note pad at index 0. -/
theorem C9_dirty_unconditional_witness :
    0 < pad1n.notes.length ∧
    ((move_left pad1n 0).1.dirty = true ∧
    (move_right pad1n 0).1.dirty = true ∧
    (zoom_in pad1n).dirty = true ∧
    (zoom_out pad1n).dirty = true) :=
  ⟨by decide, C9_dirty_unconditional pad1n 0 (by decide)⟩

end MemoPadModel
